import Mathlib

/-!
Verification development for the HammingAITakeHome discovery engine.

The definitions below are a shallow embedding of the TypeScript sources
`src/discovery/conversationTree.ts` and
`src/orchestrator/discoveryOrchestrator.ts`.  JavaScript `Set<string>` values
are modelled as insertion-ordered duplicate-free `List String` values
(`setAdd` mirrors `Set.add`, `List.contains` mirrors `Set.has`, `List.length`
mirrors `Set.size`), JavaScript `Map` values as insertion-ordered association
lists (`mapSet` mirrors `Map.set`, `mapFind?` mirrors `Map.get`), thrown
exceptions as `Except String`, and the nondeterministic inputs of the
orchestrator (freshly generated node ids, externally supplied call ids,
analyzer results, dispatch outcomes) as explicit parameters.
-/

namespace HammingDiscovery

/-- ASCII variant of JavaScript's `\s` character class (the inputs relevant
here are ASCII): space, tab, newline, vertical tab, form feed, carriage
return. -/
def isWsChar (c : Char) : Bool :=
  c = ' ' || c = '\t' || c = '\n' || c = '\r' || c.toNat = 11 || c.toNat = 12

/-- JavaScript `toLowerCase` restricted to ASCII letters. -/
def jsLowerChar (c : Char) : Char :=
  if 'A' ≤ c ∧ c ≤ 'Z' then Char.ofNat (c.toNat + 32) else c

/-- Lower-case every character of a string, as `prompt.toLowerCase()` does. -/
def jsToLower (s : String) : String :=
  ⟨s.data.map jsLowerChar⟩

/-- Does `pat` occur at the front of `hay`? -/
def matchesFront : List Char → List Char → Bool
  | [], _ => true
  | _ :: _, [] => false
  | p :: ps, c :: cs => p = c && matchesFront ps cs

/-- Does `pat` occur somewhere inside `hay`?  Models
`String.prototype.includes`. -/
def listIncludes : List Char → List Char → Bool
  | [], pat => pat.isEmpty
  | c :: cs, pat => matchesFront pat (c :: cs) || listIncludes cs pat

/-- `s.includes(pat)` on strings. -/
def strIncludes (s pat : String) : Bool :=
  listIncludes s.data pat.data

/-- Characters kept by `replace(/[^a-z0-9\s]/g, "")` (applied after
lower-casing). -/
def keepSigChar (c : Char) : Bool :=
  ('a' ≤ c && c ≤ 'z') || ('0' ≤ c && c ≤ '9') || isWsChar c

/-- Worker for splitting on `/\s+/`: `inWs` records whether the previous
character belonged to a whitespace run (so that a run contributes a single
separator), `acc` holds the current token's characters in reverse. -/
def splitWsGo : Bool → List Char → List Char → List String
  | _, acc, [] => [String.mk acc.reverse]
  | inWs, acc, c :: cs =>
    if isWsChar c then
      if inWs then splitWsGo true acc cs
      else String.mk acc.reverse :: splitWsGo true [] cs
    else splitWsGo false (c :: acc) cs

/-- Splitting on `/\s+/` as JavaScript `String.prototype.split` does: a
leading (resp. trailing) whitespace run contributes a leading (resp.
trailing) empty token, and the empty string yields `[""]`. -/
def splitWsJs (l : List Char) : List String :=
  splitWsGo false [] l

/-- JavaScript code-unit comparison of two strings (the default `sort()`
comparator), on their character lists. -/
def charListLe : List Char → List Char → Bool
  | [], _ => true
  | _ :: _, [] => false
  | a :: as, b :: bs =>
    if a.toNat < b.toNat then true
    else if b.toNat < a.toNat then false
    else charListLe as bs

/-- Default-comparator ordering on strings. -/
def strLeB (a b : String) : Bool :=
  charListLe a.data b.data

section StableSort

variable {α : Type} (le : α → α → Bool)

/-- Insert `x` after every already-placed element `y` with `le y x`; the
building block of a stable insertion sort. -/
def insLe (x : α) : List α → List α
  | [] => [x]
  | y :: ys => if le y x then y :: insLe x ys else x :: y :: ys

/-- Stable sort with respect to the boolean preorder `le`.  JavaScript's
`Array.prototype.sort` is stable (ES2019), and a stable sort of a total
preorder is unique, so this models `sort` faithfully for the consistent
comparators the sources use. -/
def sortByLe (l : List α) : List α :=
  l.foldl (fun acc x => insLe le x acc) []

end StableSort

/-- `generatePathSignature` from `conversationTree.ts`: lower-case, strip
characters outside `[a-z0-9\s]`, split on whitespace runs, sort the tokens
with the default comparator, join with `_`. -/
def generatePathSignature (prompt : String) : String :=
  let lowered := prompt.data.map jsLowerChar
  let kept := lowered.filter keepSigChar
  let toks := splitWsJs kept
  String.intercalate "_" (sortByLe strLeB toks)

/-- `Set.add`: append the element unless already present (JS sets keep
insertion order and ignore duplicate adds). -/
def setAdd (l : List String) (x : String) : List String :=
  if l.contains x then l else l ++ [x]

/-- Add every element of `xs` to the set `l`, in order (models a `forEach`
loop of `Set.add` calls). -/
def setUnion (l xs : List String) : List String :=
  xs.foldl setAdd l

/-- `ConversationTree.extractThemes`: the fixed keyword-to-theme table of the
tree store. -/
def extractThemes (text : String) : List String :=
  let n := jsToLower text
  (if strIncludes n "emergency" then ["emergency_service"] else []) ++
  (if strIncludes n "maintenance" then ["maintenance"] else []) ++
  (if strIncludes n "repair" then ["repair"] else []) ++
  (if strIncludes n "installation" then ["installation"] else []) ++
  (if strIncludes n "quote" then ["quote"] else []) ++
  (if strIncludes n "pricing" then ["pricing"] else []) ++
  (if strIncludes n "name" then ["personal_info"] else []) ++
  (if strIncludes n "address" then ["location_info"] else []) ++
  (if strIncludes n "contact" then ["contact_info"] else []) ++
  (if strIncludes n "schedule" then ["scheduling"] else [])

/-- `DiscoveryOrchestrator.extractThemes`: the (different) keyword table used
for priority scoring in the orchestrator. -/
def orchExtractThemes (text : String) : List String :=
  let n := jsToLower text
  (if strIncludes n "emergency" then ["emergency"] else []) ++
  (if strIncludes n "maintenance" then ["maintenance"] else []) ++
  (if strIncludes n "repair" then ["repair"] else []) ++
  (if strIncludes n "installation" then ["installation"] else []) ++
  (if strIncludes n "quote" then ["quote"] else []) ++
  (if strIncludes n "name" || strIncludes n "address" then ["personal_info"] else []) ++
  (if strIncludes n "schedule" || strIncludes n "appointment" then ["scheduling"] else [])

/-- The `NodeStatus` enum of `conversationTree.ts`. -/
inductive NodeStatus where
  | unexplored
  | inProgress
  | completed
  | failed
deriving DecidableEq, Repr

/-- The `CallNode` record of `conversationTree.ts`.  `children` holds child
node ids (the TypeScript array of child objects aliases the map entries, so
id indirection is equivalent); the `timestamp : Date` field is omitted
because nothing in the specified behaviour reads it. -/
structure CallNode where
  id : String
  systemPrompt : String
  responseReceived : String
  callId : String
  status : NodeStatus
  children : List String
  parentId : Option String
  depth : Nat
  potentialPrompts : Option (List String)
  retryCount : Nat
  pathSignature : String
  exploredThemes : List String
deriving DecidableEq, Repr

/-- The `ConversationTree` class state: the insertion-ordered id-to-node map,
the root id (the TypeScript field holds the root object, which is the map
entry for `"root"`), the depth limit, and the global signature set. -/
structure ConversationTree where
  nodes : List (String × CallNode)
  rootNode : Option String
  maxDepth : Nat
  exploredSignatures : List String
deriving DecidableEq, Repr

/-- `MAX_CHILDREN_PER_NODE` in `conversationTree.ts`. -/
def MAX_CHILDREN_PER_NODE : Nat := 5

/-- `Map.prototype.get`. -/
def mapFind? : List (String × CallNode) → String → Option CallNode
  | [], _ => none
  | (k', v') :: rest, k => if k' = k then some v' else mapFind? rest k

/-- `Map.prototype.set`: replace the entry in place if the key is present
(JavaScript maps keep the original position), append otherwise. -/
def mapSet : List (String × CallNode) → String → CallNode → List (String × CallNode)
  | [], k, v => [(k, v)]
  | (k', v') :: rest, k, v =>
    if k' = k then (k, v) :: rest else (k', v') :: mapSet rest k v

/-- The in-place field rewrite that `handleCallFailed` performs on a stored
node when it redispatches it: replace the call id, increment the retry
count. -/
def bumpRetry (node : CallNode) (newCallId : String) : CallNode :=
  { node with callId := newCallId, retryCount := node.retryCount + 1 }

namespace ConversationTree

/-- The `ConversationTree` constructor (default `maxDepth` is 10 in the
source; the deployment passes 5). -/
def new (maxDepth : Nat) : ConversationTree :=
  { nodes := [], rootNode := none, maxDepth := maxDepth, exploredSignatures := [] }

/-- `initializeRoot`: fails if a root already exists, otherwise installs the
root node (depth 0, status in-progress) and records its path signature. -/
def initializeRoot (t : ConversationTree) (systemPrompt callId : String) :
    Except String (ConversationTree × CallNode) :=
  match t.rootNode with
  | some _ => .error "Tree already initialized"
  | none =>
    let rootNode : CallNode :=
      { id := "root"
        systemPrompt := systemPrompt
        responseReceived := ""
        callId := callId
        status := .inProgress
        children := []
        parentId := none
        depth := 0
        potentialPrompts := none
        retryCount := 0
        pathSignature := generatePathSignature systemPrompt
        exploredThemes := [] }
    .ok ({ t with
            nodes := mapSet t.nodes rootNode.id rootNode
            rootNode := some rootNode.id
            exploredSignatures := setAdd t.exploredSignatures rootNode.pathSignature },
         rootNode)

/-- The union of `exploredThemes` over the children of `n`, accumulated in
child order — the set the redundancy check builds by iterating
`parent.children`. -/
def childrenThemesUnion (t : ConversationTree) (n : CallNode) : List String :=
  n.children.foldl
    (fun acc cid =>
      match mapFind? t.nodes cid with
      | some c => setUnion acc c.exploredThemes
      | none => acc)
    []

/-- `isRedundantPath`: globally explored signatures are redundant; otherwise
a candidate with at least one theme is redundant exactly when every theme is
already covered by the union of themes across the children of the context
node's **parent** (i.e. the context's siblings); a context without a parent
(or with a dangling parent id) never triggers the theme check. -/
def isRedundantPath (t : ConversationTree) (pathSignature : String) (context : CallNode) : Bool :=
  if t.exploredSignatures.contains pathSignature then true
  else
    let themes := extractThemes pathSignature
    if themes.isEmpty then false
    else
      match context.parentId with
      | some pid =>
        match mapFind? t.nodes pid with
        | some parent =>
          let siblingThemes := childrenThemesUnion t parent
          themes.all (fun th => siblingThemes.contains th)
        | none => false
      | none => false

/-- `addNode`: guarded by parent existence, the depth limit, the fan-out
limit, and the redundancy check, in that order; on success the child (fresh
id `newId`, depth `parent.depth + 1`, status in-progress, themes extracted
from the prompt) is appended to the parent's children and to the map, and
its signature is recorded.  Failures return an error and (being pre-mutation
throws in the source) leave the tree unchanged. -/
def addNode (t : ConversationTree) (parentId systemPrompt callId newId : String) :
    Except String (ConversationTree × CallNode) :=
  match mapFind? t.nodes parentId with
  | none => .error "Parent node not found"
  | some parentNode =>
    if parentNode.depth ≥ t.maxDepth - 1 then .error "Maximum depth reached"
    else if parentNode.children.length ≥ MAX_CHILDREN_PER_NODE then
      .error "Maximum children limit reached"
    else
      let pathSignature := generatePathSignature systemPrompt
      if isRedundantPath t pathSignature parentNode then
        .error "Similar conversation path already explored"
      else
        let newNode : CallNode :=
          { id := newId
            systemPrompt := systemPrompt
            responseReceived := ""
            callId := callId
            status := .inProgress
            children := []
            parentId := some parentId
            depth := parentNode.depth + 1
            potentialPrompts := none
            retryCount := 0
            pathSignature := pathSignature
            exploredThemes := extractThemes systemPrompt }
        let parentNode' := { parentNode with children := parentNode.children ++ [newId] }
        .ok ({ t with
                nodes := mapSet (mapSet t.nodes parentId parentNode') newId newNode
                exploredSignatures := setAdd t.exploredSignatures pathSignature },
             newNode)

/-- `updateNodeWithResponse`: looks the node up (error if absent, with no
status precondition), filters the candidate prompts through
`isRedundantPath` with the node itself as context, overwrites the stored
response and candidate list, sets the status to completed, merges the themes
extracted from the response into the node, and returns exactly those
extracted response themes. -/
def updateNodeWithResponse (t : ConversationTree) (nodeId response : String)
    (potentialPrompts : Option (List String)) :
    Except String (ConversationTree × List String) :=
  match mapFind? t.nodes nodeId with
  | none => .error "Node not found"
  | some node =>
    let uniquePrompts := potentialPrompts.map
      (List.filter (fun prompt => !isRedundantPath t (generatePathSignature prompt) node))
    let responseThemes := extractThemes response
    let node' :=
      { node with
          responseReceived := response
          potentialPrompts := uniquePrompts
          status := .completed
          exploredThemes := setUnion node.exploredThemes responseThemes }
    .ok ({ t with nodes := mapSet t.nodes nodeId node' }, responseThemes)

/-- The comparator of `getNodesWithUnexploredPaths` as a boolean preorder:
`a` may precede `b` when `a` has strictly fewer children, or equally many
children and at least as many distinct themes. -/
def nodeLe (a b : CallNode) : Bool :=
  decide (a.children.length < b.children.length) ||
    (a.children.length = b.children.length && decide (b.exploredThemes.length ≤ a.exploredThemes.length))

/-- The eligibility filter of `getNodesWithUnexploredPaths`: completed, at
least one stored candidate, below the depth limit, below the fan-out
limit. -/
def readyForExpansion (t : ConversationTree) (n : CallNode) : Bool :=
  n.status = NodeStatus.completed &&
    decide (0 < (n.potentialPrompts.getD []).length) &&
    decide (n.depth < t.maxDepth) &&
    decide (n.children.length < MAX_CHILDREN_PER_NODE)

/-- `getNodesWithUnexploredPaths`: filter the nodes in insertion order, then
stable-sort ascending by child count with ties broken descending by distinct
theme count. -/
def getNodesWithUnexploredPaths (t : ConversationTree) : List CallNode :=
  sortByLe nodeLe ((t.nodes.map Prod.snd).filter (readyForExpansion t))

/-- `getAllNodes` (insertion order of the map). -/
def getAllNodes (t : ConversationTree) : List CallNode :=
  t.nodes.map Prod.snd

end ConversationTree

/-- A queued frontier task (`callQueue` element of
`discoveryOrchestrator.ts`). -/
structure QueueTask where
  parentId : String
  prompt : String
  priority : Int
deriving DecidableEq, Repr

/-- The mutable `DiscoveryState` of the orchestrator.  `activeCallCount` is an
`Int` because the source decrements a JavaScript number without a floor; the
timestamp fields are omitted because nothing in the specified behaviour reads
them. -/
structure DiscoveryState where
  isRunning : Bool
  activeCallCount : Int
  completedCallCount : Nat
  failedCallCount : Nat
  exploredThemes : List String
  activeThemes : List String
deriving DecidableEq, Repr

/-- The orchestrator's own state: the owned conversation tree, the discovery
counters, and the frontier queue. -/
structure DiscoveryOrchestrator where
  tree : ConversationTree
  state : DiscoveryState
  callQueue : List QueueTask
deriving DecidableEq, Repr

/-- The result of `ResponseAnalyzer.analyzeResponse`, supplied by the
analyzer collaborator (`confidence` is unused by the orchestrator logic
modelled here). -/
structure AnalysisResult where
  identifiedPaths : List String
  isTerminalState : Bool
deriving DecidableEq, Repr

namespace DiscoveryOrchestrator

/-- `MAX_RETRY_ATTEMPTS` in `discoveryOrchestrator.ts`. -/
def MAX_RETRY_ATTEMPTS : Nat := 3

/-- Descending-priority ordering on queue tasks (`(a, b) => b.priority -
a.priority`). -/
def taskLe (a b : QueueTask) : Bool :=
  decide (b.priority ≤ a.priority)

/-- `findNodeByCallId`: first node, in map insertion order, whose `callId`
matches. -/
def findNodeByCallId (t : ConversationTree) (callId : String) : Option CallNode :=
  (t.nodes.map Prod.snd).find? (fun n => n.callId = callId)

/-- `calculatePathPriority`: 2 points per theme of the prompt not yet in the
globally explored set, +3 for the urgency keyword, −1 per theme overlapping
the currently active theme set. -/
def calculatePathPriority (st : DiscoveryState) (prompt : String) : Int :=
  let promptThemes := orchExtractThemes prompt
  let newThemes := promptThemes.filter (fun th => !st.exploredThemes.contains th)
  let p : Int := (newThemes.length : Int) * 2
  let p := if strIncludes (jsToLower prompt) "emergency" then p + 3 else p
  let overlap := promptThemes.filter (fun th => st.activeThemes.contains th)
  p - (overlap.length : Int)

/-- `updateStateAfterCall`: one active call fewer, one completed call more,
the newly returned themes merged into the explored set and deleted from the
active set. -/
def updateStateAfterCall (st : DiscoveryState) (newThemes : List String) : DiscoveryState :=
  { st with
      activeCallCount := st.activeCallCount - 1
      completedCallCount := st.completedCallCount + 1
      exploredThemes := setUnion st.exploredThemes newThemes
      activeThemes := newThemes.foldl (fun acc th => acc.filter (fun x => x ≠ th)) st.activeThemes }

/-- `queueNewPaths`: push one task per path (priority computed against the
current state), then re-sort the whole queue descending by priority. -/
def queueNewPaths (o : DiscoveryOrchestrator) (parentId : String) (paths : List String) :
    DiscoveryOrchestrator :=
  let newTasks := paths.map (fun prompt =>
    { parentId := parentId, prompt := prompt,
      priority := calculatePathPriority o.state prompt : QueueTask })
  { o with callQueue := sortByLe taskLe (o.callQueue ++ newTasks) }

/-- `handleCallCompleted`, with the analyzer's verdict supplied as a
parameter.  An unknown call id, or a failing tree update, lands in the
`catch` block, which increments `failedCallCount`; otherwise the node is
updated, the counters advance, and — when the analysis is not terminal —
**all** of `analysis.identifiedPaths` are enqueued (the source passes the
unfiltered analyzer list to `queueNewPaths`, not the filtered survivors it
just stored on the node).  The surrounding `try`/`catch` means the method
never propagates an exception, which the model reflects by being a total
function. -/
def handleCallCompleted (o : DiscoveryOrchestrator) (callId response : String)
    (analysis : AnalysisResult) : DiscoveryOrchestrator :=
  match findNodeByCallId o.tree callId with
  | none =>
    { o with state := { o.state with failedCallCount := o.state.failedCallCount + 1 } }
  | some node =>
    match ConversationTree.updateNodeWithResponse o.tree node.id response
        (some analysis.identifiedPaths) with
    | .error _ =>
      { o with state := { o.state with failedCallCount := o.state.failedCallCount + 1 } }
    | .ok (tree', newThemes) =>
      let o' := { o with tree := tree', state := updateStateAfterCall o.state newThemes }
      if analysis.isTerminalState then o' else queueNewPaths o' node.id analysis.identifiedPaths

/-- `handleCallFailed`, with the call id of a successful redispatch supplied
as `newCallId`.  The returned boolean records whether a redispatch (a new
`initiateCall`) happened.  An unknown id skips the retry logic but still
decrements `activeCallCount`; a known node below `MAX_RETRY_ATTEMPTS` is
redispatched in place (`callId` replaced, `retryCount` incremented); a node
at the limit only increments `failedCallCount`.  No branch ever changes the
node's `status`. -/
def handleCallFailed (o : DiscoveryOrchestrator) (callId newCallId : String) :
    DiscoveryOrchestrator × Bool :=
  match findNodeByCallId o.tree callId with
  | none =>
    ({ o with state := { o.state with activeCallCount := o.state.activeCallCount - 1 } }, false)
  | some node =>
    if node.retryCount < MAX_RETRY_ATTEMPTS then
      ({ o with
          tree := { o.tree with nodes := mapSet o.tree.nodes node.id (bumpRetry node newCallId) }
          state := { o.state with activeCallCount := o.state.activeCallCount - 1 } }, true)
    else
      ({ o with
          state := { o.state with
                       failedCallCount := o.state.failedCallCount + 1
                       activeCallCount := o.state.activeCallCount - 1 } }, false)

/-- `shouldRetryCall`: retry while the task's priority is above −2. -/
def shouldRetryCall (call : QueueTask) : Bool :=
  decide (call.priority > -2)

/-- The `catch` branch of the dispatch loop body: re-enqueue at the back with
priority decremented when `shouldRetryCall` holds, silently drop the task
otherwise.  Neither branch touches the discovery counters. -/
def retryOrDrop (o : DiscoveryOrchestrator) (nextCall : QueueTask) (rest : List QueueTask) :
    DiscoveryOrchestrator :=
  if shouldRetryCall nextCall then
    { o with callQueue := rest ++ [{ nextCall with priority := nextCall.priority - 1 }] }
  else
    { o with callQueue := rest }

/-- The outcome of one `initiateCall` attempt, supplied by the call-manager
collaborator. -/
inductive DispatchOutcome where
  | ok (callId : String)
  | failed
deriving DecidableEq, Repr

/-- One iteration of the `processCallQueue` `while` loop: nothing happens
unless the engine is running, the queue is non-empty, and the concurrency
cap has room; then the head task is popped and dispatched.  A successful
dispatch whose `addNode` also succeeds installs the new node, bumps
`activeCallCount`, and merges the prompt's themes into the active set; a
dispatch failure — or an `addNode` throw — goes through `retryOrDrop`. -/
def processOneQueued (o : DiscoveryOrchestrator) (maxConcurrentCalls : Int)
    (outcome : DispatchOutcome) (newNodeId : String) : DiscoveryOrchestrator :=
  if !o.state.isRunning then o
  else
    match o.callQueue with
    | [] => o
    | nextCall :: rest =>
      if o.state.activeCallCount < maxConcurrentCalls then
        match outcome with
        | .failed => retryOrDrop o nextCall rest
        | .ok callId =>
          match ConversationTree.addNode o.tree nextCall.parentId nextCall.prompt callId newNodeId with
          | .error _ => retryOrDrop o nextCall rest
          | .ok (tree', _) =>
            { o with
                tree := tree'
                state := { o.state with
                             activeCallCount := o.state.activeCallCount + 1
                             activeThemes := setUnion o.state.activeThemes
                               (orchExtractThemes nextCall.prompt) }
                callQueue := rest }
      else o

end DiscoveryOrchestrator

/-! ### Reachable tree states and the structural invariant -/

/-- Tree states reachable through the public mutating entry points of the
store: the constructor, `initializeRoot`, `addNode` (with a fresh generated
id, as the `node_<time>_<random>` scheme produces), `updateNodeWithResponse`,
and the in-place `callId`/`retryCount` rewrite that the orchestrator's
failure handler performs on a stored node. -/
inductive Reachable : ConversationTree → Prop where
  | new (maxDepth : Nat) : Reachable (ConversationTree.new maxDepth)
  | root (t t' : ConversationTree) (n : CallNode) (p c : String) :
      Reachable t → ConversationTree.initializeRoot t p c = .ok (t', n) → Reachable t'
  | add (t t' : ConversationTree) (n : CallNode) (pid p c newId : String) :
      Reachable t → mapFind? t.nodes newId = none →
      ConversationTree.addNode t pid p c newId = .ok (t', n) → Reachable t'
  | update (t t' : ConversationTree) (themes : List String)
      (nid resp : String) (prompts : Option (List String)) :
      Reachable t → ConversationTree.updateNodeWithResponse t nid resp prompts = .ok (t', themes) →
      Reachable t'
  | failRetry (t : ConversationTree) (node : CallNode) (nid newCallId : String) :
      Reachable t → mapFind? t.nodes nid = some node →
      Reachable ({ t with nodes := mapSet t.nodes nid (bumpRetry node newCallId) })

/-- The structural invariant maintained by every reachable tree state: every
stored node is the root (depth 0) or strictly below the depth limit, respects
the fan-out limit, and has its signature registered in the global signature
set; stored signatures are pairwise distinct; and a tree without a root
stores no nodes. -/
def TreeInv (t : ConversationTree) : Prop :=
  (∀ p ∈ t.nodes,
      (p.2.depth = 0 ∨ p.2.depth < t.maxDepth) ∧
      p.2.children.length ≤ MAX_CHILDREN_PER_NODE ∧
      p.2.pathSignature ∈ t.exploredSignatures) ∧
  (t.nodes.map (fun p => p.2.pathSignature)).Nodup ∧
  (t.rootNode = none → t.nodes = [])

/-! ### Concrete example states used by witnesses and counterexamples -/

/-- A tree as constructed with `new ConversationTree(5)` (the deployed
configuration). -/
def exTree0 : ConversationTree := ConversationTree.new 5

/-- The root node produced by `initializeRoot(exTree0, "hello", "c0")`. -/
def exRoot : CallNode :=
  { id := "root", systemPrompt := "hello", responseReceived := "", callId := "c0"
    status := .inProgress, children := [], parentId := none, depth := 0
    potentialPrompts := none, retryCount := 0, pathSignature := "hello"
    exploredThemes := [] }

/-- The tree after `initializeRoot(exTree0, "hello", "c0")`. -/
def exTree1 : ConversationTree :=
  { nodes := [("root", exRoot)], rootNode := some "root", maxDepth := 5
    exploredSignatures := ["hello"] }

/-- The child node produced by `addNode(exTree1, "root", "repair please",
"cc")` when the generated node id is `"n1"`. -/
def exChild : CallNode :=
  { id := "n1", systemPrompt := "repair please", responseReceived := "", callId := "cc"
    status := .inProgress, children := [], parentId := some "root", depth := 1
    potentialPrompts := none, retryCount := 0, pathSignature := "please_repair"
    exploredThemes := ["repair"] }

/-- `exRoot` with the child `"n1"` attached. -/
def exRoot2 : CallNode :=
  { exRoot with children := ["n1"] }

/-- The tree after additionally running `addNode(exTree1, "root",
"repair please", "cc")` with generated id `"n1"`. -/
def exTree2 : ConversationTree :=
  { nodes := [("root", exRoot2), ("n1", exChild)], rootNode := some "root", maxDepth := 5
    exploredSignatures := ["hello", "please_repair"] }

/-- `exRoot` after `updateNodeWithResponse(exTree1, "root", "repair",
undefined)`: completed, response stored, the response's `repair` theme
merged. -/
def exRoot3 : CallNode :=
  { exRoot with
      responseReceived := "repair"
      status := NodeStatus.completed
      exploredThemes := ["repair"] }

/-- The tree after `updateNodeWithResponse(exTree1, "root", "repair",
undefined)`. -/
def exTree3 : ConversationTree :=
  { nodes := [("root", exRoot3)], rootNode := some "root", maxDepth := 5
    exploredSignatures := ["hello"] }

/-- A discovery state with one active root call and nothing recorded yet (the
state right after `startDiscovery` dispatched the root call). -/
def exState1 : DiscoveryState :=
  { isRunning := true, activeCallCount := 1, completedCallCount := 0, failedCallCount := 0
    exploredThemes := [], activeThemes := [] }

/-- The orchestrator owning `exTree1` in state `exState1` with an empty
frontier queue. -/
def exO1 : DiscoveryOrchestrator :=
  { tree := exTree1, state := exState1, callQueue := [] }

/-- The returned theme set of an `updateNodeWithResponse` call (empty for the
error case). -/
def updateThemesResult (r : Except String (ConversationTree × List String)) : List String :=
  match r with
  | .ok q => q.2
  | .error _ => []

/-- The node value that `updateNodeWithResponse t nodeId resp prompts` stores
in place of the stored node `node`: transcript overwritten, candidates
filtered through the redundancy check, status completed, response themes
merged. -/
def updatedNode (t : ConversationTree) (node : CallNode) (resp : String)
    (prompts : Option (List String)) : CallNode :=
  { node with
      responseReceived := resp
      potentialPrompts := prompts.map (List.filter
        (fun prompt => !ConversationTree.isRedundantPath t (generatePathSignature prompt) node))
      status := NodeStatus.completed
      exploredThemes := setUnion node.exploredThemes (extractThemes resp) }

/-- First failure report for the root call of `exO1`, redispatched as call
`"c1"`. -/
def exFail1 : DiscoveryOrchestrator × Bool :=
  DiscoveryOrchestrator.handleCallFailed exO1 "c0" "c1"

/-- Second failure report, redispatched as call `"c2"`. -/
def exFail2 : DiscoveryOrchestrator × Bool :=
  DiscoveryOrchestrator.handleCallFailed exFail1.1 "c1" "c2"

/-- Third failure report for the same node. -/
def exFail3 : DiscoveryOrchestrator × Bool :=
  DiscoveryOrchestrator.handleCallFailed exFail2.1 "c2" "c3"

/-- A frontier task already at the retry floor priority −2. -/
def exTask : QueueTask :=
  { parentId := "root", prompt := "schedule a visit", priority := -2 }

/-- An orchestrator with no active calls and `exTask` queued. -/
def exO8 : DiscoveryOrchestrator :=
  { tree := exTree1, state := { exState1 with activeCallCount := 0 }, callQueue := [exTask] }

/-- The completion of the root call of `exO1` with transcript `"hi there"`
when the analyzer proposes the single (redundant) candidate `"hello"` and no
terminal state. -/
def exO1done : DiscoveryOrchestrator :=
  DiscoveryOrchestrator.handleCallCompleted exO1 "c0" "hi there"
    { identifiedPaths := ["hello"], isTerminalState := false }

/-! ### Basic lemmas about the map and set models -/

theorem contains_of_mem {l : List String} {x : String} (h : x ∈ l) : l.contains x = true := by
  simpa using h

theorem mem_of_contains {l : List String} {x : String} (h : l.contains x = true) : x ∈ l := by
  simpa using h

theorem mem_setAdd_of_mem {l : List String} {x y : String} (h : x ∈ l) : x ∈ setAdd l y := by
  unfold setAdd
  split
  · exact h
  · exact List.mem_append_left _ h

theorem mem_setAdd_self (l : List String) (y : String) : y ∈ setAdd l y := by
  unfold setAdd
  by_cases h : l.contains y = true
  · rw [if_pos h]
    exact mem_of_contains h
  · rw [if_neg h]
    exact List.mem_append_right _ (by simp)

theorem mem_mapSet {nodes : List (String × CallNode)} {k k' : String} {v v' : CallNode}
    (h : (k', v') ∈ mapSet nodes k v) : (k' = k ∧ v' = v) ∨ (k', v') ∈ nodes := by
  induction nodes with
  | nil =>
    simp only [mapSet, List.mem_singleton] at h
    exact Or.inl (by simpa [Prod.ext_iff] using h)
  | cons p rest ih =>
    obtain ⟨pk, pv⟩ := p
    simp only [mapSet] at h
    by_cases hk : pk = k
    · rw [if_pos hk] at h
      rcases List.mem_cons.mp h with h | h
      · exact Or.inl (by simpa [Prod.ext_iff] using h)
      · exact Or.inr (List.mem_cons_of_mem _ h)
    · rw [if_neg hk] at h
      rcases List.mem_cons.mp h with h | h
      · exact Or.inr (List.mem_cons.mpr (Or.inl h))
      · rcases ih h with h' | h'
        · exact Or.inl h'
        · exact Or.inr (List.mem_cons_of_mem _ h')

theorem mapSet_fresh {nodes : List (String × CallNode)} {k : String} (v : CallNode)
    (h : mapFind? nodes k = none) : mapSet nodes k v = nodes ++ [(k, v)] := by
  induction nodes with
  | nil => simp [mapSet]
  | cons p rest ih =>
    obtain ⟨pk, pv⟩ := p
    simp only [mapFind?] at h
    by_cases hk : pk = k
    · simp [hk] at h
    · simp only [mapSet, if_neg hk, List.cons_append, List.cons.injEq, true_and]
      exact ih (by simpa [hk] using h)

theorem mapFind?_mapSet_self (nodes : List (String × CallNode)) (k : String) (v : CallNode) :
    mapFind? (mapSet nodes k v) k = some v := by
  induction nodes with
  | nil => simp [mapSet, mapFind?]
  | cons p rest ih =>
    obtain ⟨pk, pv⟩ := p
    by_cases hk : pk = k
    · simp [mapSet, hk, mapFind?]
    · simp [mapSet, hk, mapFind?, ih]

theorem mapFind?_mapSet_ne (nodes : List (String × CallNode)) {k k' : String} (v : CallNode)
    (h : k ≠ k') : mapFind? (mapSet nodes k v) k' = mapFind? nodes k' := by
  induction nodes with
  | nil => simp [mapSet, mapFind?, h]
  | cons p rest ih =>
    obtain ⟨pk, pv⟩ := p
    by_cases hk : pk = k
    · simp [mapSet, hk, mapFind?, h]
    · simp [mapSet, hk, mapFind?, ih]

theorem mem_of_mapFind? {nodes : List (String × CallNode)} {k : String} {v : CallNode}
    (h : mapFind? nodes k = some v) : (k, v) ∈ nodes := by
  induction nodes with
  | nil => simp [mapFind?] at h
  | cons p rest ih =>
    obtain ⟨pk, pv⟩ := p
    by_cases hk : pk = k
    · subst hk
      have hv : pv = v := by simpa [mapFind?] using h
      exact List.mem_cons.mpr (Or.inl (by simp [hv]))
    · simp only [mapFind?, if_neg hk] at h
      exact List.mem_cons_of_mem _ (ih h)

theorem sigs_mapSet_eq {nodes : List (String × CallNode)} {k : String} {v w : CallNode}
    (hfind : mapFind? nodes k = some w) (hsig : v.pathSignature = w.pathSignature) :
    (mapSet nodes k v).map (fun p => p.2.pathSignature) =
      nodes.map (fun p => p.2.pathSignature) := by
  induction nodes with
  | nil => simp [mapFind?] at hfind
  | cons p rest ih =>
    obtain ⟨pk, pv⟩ := p
    by_cases hk : pk = k
    · subst hk
      have hv : pv = w := by simpa [mapFind?] using hfind
      simp [mapSet, hsig, hv]
    · simp only [mapFind?, if_neg hk] at hfind
      simp [mapSet, hk, ih hfind]

/-! ### Permutation and sortedness of the stable sort -/

section StableSortLemmas

variable {α : Type} {le : α → α → Bool}

theorem insLe_perm (x : α) (l : List α) : List.Perm (insLe le x l) (x :: l) := by
  induction l with
  | nil => simp [insLe]
  | cons y ys ih =>
    unfold insLe
    by_cases h : le y x = true
    · rw [if_pos h]
      exact (List.Perm.cons y ih).trans (List.Perm.swap x y ys)
    · rw [if_neg h]

theorem sortByLe_perm (l : List α) : List.Perm (sortByLe le l) l := by
  suffices h : ∀ acc : List α,
      List.Perm (List.foldl (fun acc x => insLe le x acc) acc l) (acc ++ l) by
    simpa using h []
  induction l with
  | nil => simp
  | cons x xs ih =>
    intro acc
    simp only [List.foldl_cons]
    exact (ih (insLe le x acc)).trans
      (((insLe_perm x acc).append_right xs).trans List.perm_middle.symm)

theorem insLe_pairwise (total : ∀ a b, le a b = true ∨ le b a = true)
    (trans : ∀ a b c, le a b = true → le b c = true → le a c = true)
    (x : α) {l : List α} (h : l.Pairwise (fun a b => le a b = true)) :
    (insLe le x l).Pairwise (fun a b => le a b = true) := by
  induction l with
  | nil => simp [insLe]
  | cons y ys ih =>
    rcases List.pairwise_cons.mp h with ⟨hy, hys⟩
    unfold insLe
    by_cases hle : le y x = true
    · rw [if_pos hle]
      refine List.pairwise_cons.mpr ⟨?_, ih hys⟩
      intro z hz
      have hz' := (insLe_perm x ys).mem_iff.mp hz
      rcases List.mem_cons.mp hz' with hz' | hz'
      · exact hz' ▸ hle
      · exact hy z hz'
    · rw [if_neg hle]
      have hxy : le x y = true := (total x y).resolve_right (fun hc => hle hc)
      refine List.pairwise_cons.mpr ⟨?_, h⟩
      intro z hz
      rcases List.mem_cons.mp hz with hz | hz
      · exact hz ▸ hxy
      · exact trans x y z hxy (hy z hz)

theorem sortByLe_pairwise (total : ∀ a b, le a b = true ∨ le b a = true)
    (trans : ∀ a b c, le a b = true → le b c = true → le a c = true)
    (l : List α) : (sortByLe le l).Pairwise (fun a b => le a b = true) := by
  suffices h : ∀ acc : List α, acc.Pairwise (fun a b => le a b = true) →
      (List.foldl (fun acc x => insLe le x acc) acc l).Pairwise (fun a b => le a b = true) by
    exact h [] (by simp)
  induction l with
  | nil => intro acc hacc; simpa using hacc
  | cons x xs ih =>
    intro acc hacc
    exact ih (insLe le x acc) (insLe_pairwise total trans x hacc)

end StableSortLemmas

theorem treeInv_new (maxDepth : Nat) : TreeInv (ConversationTree.new maxDepth) := by
  refine ⟨?_, ?_, ?_⟩ <;> simp [ConversationTree.new]

theorem treeInv_initializeRoot {t t' : ConversationTree} {n : CallNode} {p c : String}
    (hinv : TreeInv t) (hok : ConversationTree.initializeRoot t p c = .ok (t', n)) :
    TreeInv t' := by
  obtain ⟨hnodes, hsigs, hroot⟩ := hinv
  cases hr : t.rootNode with
  | some r => simp [ConversationTree.initializeRoot, hr] at hok
  | none =>
    have hempty : t.nodes = [] := hroot hr
    simp only [ConversationTree.initializeRoot, hr] at hok
    rw [Except.ok.injEq, Prod.mk.injEq] at hok
    obtain ⟨ht', _⟩ := hok
    subst ht'
    refine ⟨?_, ?_, ?_⟩
    · intro q hq
      simp only [hempty, mapSet, List.mem_singleton] at hq
      subst hq
      exact ⟨Or.inl rfl, by simp [MAX_CHILDREN_PER_NODE], mem_setAdd_self _ _⟩
    · simp [hempty, mapSet]
    · intro hcontra
      simp at hcontra

/-- Core preservation argument for an in-place node rewrite that keeps the
signature, depth and children of the stored node. -/
theorem treeInv_after_set {t : ConversationTree} {nid : String} {node v : CallNode}
    (hinv : TreeInv t) (hfind : mapFind? t.nodes nid = some node)
    (hsig : v.pathSignature = node.pathSignature)
    (hdepth : v.depth = node.depth)
    (hchildren : v.children = node.children) :
    TreeInv ({ t with nodes := mapSet t.nodes nid v }) := by
  obtain ⟨hnodes, hsigs, hroot⟩ := hinv
  have hnode_mem : (nid, node) ∈ t.nodes := mem_of_mapFind? hfind
  have hnode_inv := hnodes _ hnode_mem
  refine ⟨?_, ?_, ?_⟩
  · intro q hq
    obtain ⟨qk, qv⟩ := q
    simp only at hq
    rcases mem_mapSet hq with ⟨hk, hv⟩ | hq'
    · subst hv
      exact ⟨by rw [hdepth]; exact hnode_inv.1, by rw [hchildren]; exact hnode_inv.2.1,
             by rw [hsig]; exact hnode_inv.2.2⟩
    · exact hnodes _ hq'
  · show (List.map (fun p => p.2.pathSignature) (mapSet t.nodes nid v)).Nodup
    rw [sigs_mapSet_eq hfind hsig]
    exact hsigs
  · intro hcontra
    simp only at hcontra
    have hempty := hroot hcontra
    rw [hempty] at hfind
    simp [mapFind?] at hfind

/-- Core preservation argument for appending a fresh node while rewriting the
parent entry in a signature-, depth- and fan-out-respecting way. -/
theorem treeInv_after_add {t : ConversationTree} {pid newId : String}
    {parentNode P N : CallNode}
    (hinv : TreeInv t)
    (hfind : mapFind? t.nodes pid = some parentNode)
    (hfresh : mapFind? t.nodes newId = none)
    (hPsig : P.pathSignature = parentNode.pathSignature)
    (hPdepth : P.depth = parentNode.depth)
    (hPchildren : P.children.length ≤ MAX_CHILDREN_PER_NODE)
    (hNdepth : N.depth < t.maxDepth)
    (hNchildren : N.children.length ≤ MAX_CHILDREN_PER_NODE)
    (hNsig : t.exploredSignatures.contains N.pathSignature = false) :
    TreeInv ({ t with
        nodes := mapSet (mapSet t.nodes pid P) newId N
        exploredSignatures := setAdd t.exploredSignatures N.pathSignature }) := by
  obtain ⟨hnodes, hsigs, hroot⟩ := hinv
  have hnode_mem : (pid, parentNode) ∈ t.nodes := mem_of_mapFind? hfind
  have hparent_inv := hnodes _ hnode_mem
  have hne : pid ≠ newId := by
    intro he
    rw [he, hfresh] at hfind
    exact Option.noConfusion hfind
  have hfresh' : mapFind? (mapSet t.nodes pid P) newId = none := by
    rw [mapFind?_mapSet_ne _ _ hne]
    exact hfresh
  have happend := mapSet_fresh N hfresh'
  have hsig_inner : (mapSet t.nodes pid P).map (fun q => q.2.pathSignature) =
      t.nodes.map (fun q => q.2.pathSignature) := sigs_mapSet_eq hfind hPsig
  have hsig_mem_explored : ∀ s ∈ t.nodes.map (fun q => q.2.pathSignature),
      s ∈ t.exploredSignatures := by
    intro s hs
    rcases List.mem_map.mp hs with ⟨q, hq, hqs⟩
    exact hqs ▸ (hnodes q hq).2.2
  refine ⟨?_, ?_, ?_⟩
  · intro q hq
    obtain ⟨qk, qv⟩ := q
    simp only at hq
    rcases mem_mapSet hq with ⟨hk, hv⟩ | hq'
    · subst hv
      exact ⟨Or.inr hNdepth, hNchildren, mem_setAdd_self _ _⟩
    · rcases mem_mapSet hq' with ⟨hk, hv⟩ | hq''
      · subst hv
        exact ⟨by rw [hPdepth]; exact hparent_inv.1, hPchildren,
               by rw [hPsig]; exact mem_setAdd_of_mem hparent_inv.2.2⟩
      · rcases hnodes _ hq'' with ⟨h1, h2, h3⟩
        exact ⟨h1, h2, mem_setAdd_of_mem h3⟩
  · show (List.map (fun p => p.2.pathSignature)
        (mapSet (mapSet t.nodes pid P) newId N)).Nodup
    rw [happend, List.map_append, hsig_inner]
    rw [List.nodup_append]
    refine ⟨hsigs, by simp, ?_⟩
    intro s hs hs'
    simp only [List.map_cons, List.map_nil, List.mem_singleton] at hs'
    subst hs'
    have := contains_of_mem (hsig_mem_explored _ hs)
    rw [hNsig] at this
    exact Bool.noConfusion this
  · intro hcontra
    simp only at hcontra
    have hempty := hroot hcontra
    rw [hempty] at hfind
    simp [mapFind?] at hfind

theorem treeInv_addNode {t t' : ConversationTree} {n : CallNode} {pid p c newId : String}
    (hinv : TreeInv t) (hfresh : mapFind? t.nodes newId = none)
    (hok : ConversationTree.addNode t pid p c newId = .ok (t', n)) : TreeInv t' := by
  cases hfind : mapFind? t.nodes pid with
  | none => simp [ConversationTree.addNode, hfind] at hok
  | some parentNode =>
    simp only [ConversationTree.addNode, hfind] at hok
    split_ifs at hok with hdepth hchild hred
    have hcontains : t.exploredSignatures.contains (generatePathSignature p) = false := by
      by_contra hcc
      have hcc' : t.exploredSignatures.contains (generatePathSignature p) = true := by
        simpa using hcc
      exact hred (by unfold ConversationTree.isRedundantPath; rw [if_pos hcc'])
    rw [Except.ok.injEq, Prod.mk.injEq] at hok
    obtain ⟨ht', _⟩ := hok
    subst ht'
    apply treeInv_after_add hinv hfind hfresh
    · rfl
    · rfl
    · simp only [List.length_append, List.length_singleton]
      omega
    · simp only
      omega
    · simp [MAX_CHILDREN_PER_NODE]
    · exact hcontains

theorem treeInv_updateNode {t t' : ConversationTree} {themes : List String}
    {nid resp : String} {prompts : Option (List String)}
    (hinv : TreeInv t)
    (hok : ConversationTree.updateNodeWithResponse t nid resp prompts = .ok (t', themes)) :
    TreeInv t' := by
  cases hfind : mapFind? t.nodes nid with
  | none => simp [ConversationTree.updateNodeWithResponse, hfind] at hok
  | some node =>
    simp only [ConversationTree.updateNodeWithResponse, hfind] at hok
    rw [Except.ok.injEq, Prod.mk.injEq] at hok
    obtain ⟨ht', _⟩ := hok
    subst ht'
    exact treeInv_after_set hinv hfind rfl rfl rfl

theorem treeInv_bumpRetry {t : ConversationTree} {node : CallNode} {nid newCallId : String}
    (hinv : TreeInv t) (hfind : mapFind? t.nodes nid = some node) :
    TreeInv ({ t with nodes := mapSet t.nodes nid (bumpRetry node newCallId) }) :=
  treeInv_after_set hinv hfind rfl rfl rfl

/-- Every reachable tree state satisfies the structural invariant. -/
theorem treeInv_reachable {t : ConversationTree} (h : Reachable t) : TreeInv t := by
  induction h with
  | new maxDepth => exact treeInv_new maxDepth
  | root _ _ _ _ _ _ hok ih => exact treeInv_initializeRoot ih hok
  | add _ _ _ _ _ _ _ _ hfresh hok ih => exact treeInv_addNode ih hfresh hok
  | update _ _ _ _ _ _ _ hok ih => exact treeInv_updateNode ih hok
  | failRetry _ _ _ _ _ hfind ih => exact treeInv_bumpRetry ih hfind

theorem reachable_exTree1 : Reachable exTree1 :=
  Reachable.root exTree0 exTree1 exRoot "hello" "c0" (Reachable.new 5) rfl

theorem reachable_exTree2 : Reachable exTree2 :=
  Reachable.add exTree1 exTree2 exChild "root" "repair please" "cc" "n1" reachable_exTree1
    rfl rfl

theorem reachable_exTree3 : Reachable exTree3 :=
  Reachable.update exTree1 exTree3 ["repair"] "root" "repair" none reachable_exTree1 rfl

/-- C10: `updateNodeWithResponse` has no precondition on the node's current
status: for every node id present in the tree — whatever the stored node's
status, including an already completed node — the call succeeds (returning
the themes extracted from the new response), overwrites the stored transcript
with the new response, replaces the candidate list with the newly filtered
candidates, and (re)sets the status to completed; so a second completion
event for the same node silently overwrites the first rather than being
rejected. -/
theorem updateNodeWithResponse_no_status_precondition
    (t : ConversationTree) (nodeId resp : String) (prompts : Option (List String))
    (node : CallNode) (hfind : mapFind? t.nodes nodeId = some node) :
    ∃ t', ConversationTree.updateNodeWithResponse t nodeId resp prompts =
        .ok (t', extractThemes resp) ∧
      mapFind? t'.nodes nodeId = some (updatedNode t node resp prompts) := by
  have hupd : ConversationTree.updateNodeWithResponse t nodeId resp prompts =
      .ok ({ t with nodes := mapSet t.nodes nodeId (updatedNode t node resp prompts) },
           extractThemes resp) := by
    simp [ConversationTree.updateNodeWithResponse, hfind, updatedNode]
  exact ⟨_, hupd, mapFind?_mapSet_self t.nodes nodeId _⟩

/-- C10 witness: the root of `exTree3` is already completed, and a second
`updateNodeWithResponse` on it still succeeds and overwrites. -/
theorem updateNodeWithResponse_no_status_precondition_witness :
    mapFind? exTree3.nodes "root" = some exRoot3 ∧
    exRoot3.status = NodeStatus.completed ∧
    ∃ t', ConversationTree.updateNodeWithResponse exTree3 "root" "quote please"
        (some ["hello", "quote now"]) = .ok (t', extractThemes "quote please") :=
  ⟨rfl, rfl,
    Exists.imp (fun _ h => h.1)
      (updateNodeWithResponse_no_status_precondition exTree3 "root" "quote please"
        (some ["hello", "quote now"]) exRoot3 rfl)⟩

/-- C7 (amended): `updateNodeWithResponse` returns the **full** set of themes
extracted from the response text — not only the themes newly seen in the
whole tree — in addition to completing the node and merging those themes into
the node's theme set. -/
theorem updateNodeWithResponse_returns_full_theme_set
    (t : ConversationTree) (nodeId resp : String) (prompts : Option (List String))
    (node : CallNode) (hfind : mapFind? t.nodes nodeId = some node) :
    updateThemesResult (ConversationTree.updateNodeWithResponse t nodeId resp prompts) =
      extractThemes resp ∧
    ∃ t', ConversationTree.updateNodeWithResponse t nodeId resp prompts =
        .ok (t', extractThemes resp) ∧
      (mapFind? t'.nodes nodeId).map CallNode.exploredThemes =
        some (setUnion node.exploredThemes (extractThemes resp)) := by
  have hupd : ConversationTree.updateNodeWithResponse t nodeId resp prompts =
      .ok ({ t with nodes := mapSet t.nodes nodeId (updatedNode t node resp prompts) },
           extractThemes resp) := by
    simp [ConversationTree.updateNodeWithResponse, hfind, updatedNode]
  constructor
  · rw [hupd]
    rfl
  · refine ⟨_, hupd, ?_⟩
    rw [mapFind?_mapSet_self t.nodes nodeId _]
    rfl

/-- C7 witness: completing the fresh root of `exTree1` with transcript
`"repair"` returns that transcript's full theme set. -/
theorem updateNodeWithResponse_returns_full_theme_set_witness :
    updateThemesResult (ConversationTree.updateNodeWithResponse exTree1 "root" "repair" none) =
      extractThemes "repair" :=
  (updateNodeWithResponse_returns_full_theme_set exTree1 "root" "repair" none exRoot rfl).1

/-- C7 counterexample: in `exTree3` the theme `repair` has already been seen
in the tree (it sits on the root), yet completing the root again with the
response `"repair"` returns `["repair"]`, not the empty set of
not-previously-seen themes the claim demands. -/
theorem returned_themes_not_new_in_tree_cex :
    ("root", exRoot3) ∈ exTree3.nodes ∧
    "repair" ∈ exRoot3.exploredThemes ∧
    updateThemesResult (ConversationTree.updateNodeWithResponse exTree3 "root" "repair" none) =
      ["repair"] := by
  decide

/-- C1: in every reachable tree state with a positive configured depth limit
(the constructor default is 10, the deployment passes 5), every stored node
has depth strictly below the limit and at most `MAX_CHILDREN_PER_NODE`
children; and an `addNode` call that would place a child at or beyond the
depth limit, or on a parent whose children list is full, returns an error —
and, the embedding being functional, an erroring `addNode` returns no new
tree, i.e. leaves the tree unchanged (the source throws before any
mutation). -/
theorem tree_limits_enforced (t : ConversationTree) (hreach : Reachable t)
    (hpos : 1 ≤ t.maxDepth) :
    (∀ q ∈ t.nodes, q.2.depth < t.maxDepth ∧ q.2.children.length ≤ MAX_CHILDREN_PER_NODE) ∧
    (∀ pid prompt callId newId parentNode, mapFind? t.nodes pid = some parentNode →
      (t.maxDepth ≤ parentNode.depth + 1 ∨ MAX_CHILDREN_PER_NODE ≤ parentNode.children.length) →
      ∃ e, ConversationTree.addNode t pid prompt callId newId = .error e) := by
  obtain ⟨hnodes, -, -⟩ := treeInv_reachable hreach
  constructor
  · intro q hq
    rcases hnodes q hq with ⟨hd, hc, -⟩
    refine ⟨?_, hc⟩
    rcases hd with hd | hd
    · omega
    · exact hd
  · intro pid prompt callId newId parentNode hfind hviol
    by_cases h1 : parentNode.depth ≥ t.maxDepth - 1
    · exact ⟨"Maximum depth reached", by simp [ConversationTree.addNode, hfind, h1]⟩
    · have h2 : parentNode.children.length ≥ MAX_CHILDREN_PER_NODE := by omega
      exact ⟨"Maximum children limit reached",
        by simp [ConversationTree.addNode, hfind, h1, h2]⟩

/-- C1 witness: the singleton tree `exTree1` (depth limit 5) is reachable and
satisfies both limits. -/
theorem tree_limits_enforced_witness :
    1 ≤ exTree1.maxDepth ∧
    ∀ q ∈ exTree1.nodes,
      q.2.depth < exTree1.maxDepth ∧ q.2.children.length ≤ MAX_CHILDREN_PER_NODE :=
  ⟨by decide, (tree_limits_enforced exTree1 reachable_exTree1 (by decide)).1⟩

/-- C2: in every reachable tree state the stored path signatures are pairwise
distinct, and an `addNode` whose prompt normalises to the signature of any
node already stored anywhere in the tree is rejected with an error (leaving
the tree unchanged, the embedding being functional). -/
theorem path_signatures_globally_unique (t : ConversationTree) (hreach : Reachable t) :
    (t.nodes.map (fun q => q.2.pathSignature)).Nodup ∧
    (∀ pid prompt callId newId parentNode, mapFind? t.nodes pid = some parentNode →
      (∃ q ∈ t.nodes, q.2.pathSignature = generatePathSignature prompt) →
      ∃ e, ConversationTree.addNode t pid prompt callId newId = .error e) := by
  obtain ⟨hnodes, hsigs, -⟩ := treeInv_reachable hreach
  refine ⟨hsigs, ?_⟩
  intro pid prompt callId newId parentNode hfind hdup
  obtain ⟨q, hq, hqsig⟩ := hdup
  have hmem : generatePathSignature prompt ∈ t.exploredSignatures :=
    hqsig ▸ (hnodes q hq).2.2
  have hcontains := contains_of_mem hmem
  have hred : ConversationTree.isRedundantPath t (generatePathSignature prompt) parentNode =
      true := by
    unfold ConversationTree.isRedundantPath
    rw [if_pos hcontains]
  by_cases h1 : parentNode.depth ≥ t.maxDepth - 1
  · exact ⟨"Maximum depth reached", by simp [ConversationTree.addNode, hfind, h1]⟩
  · by_cases h2 : parentNode.children.length ≥ MAX_CHILDREN_PER_NODE
    · exact ⟨"Maximum children limit reached",
        by simp [ConversationTree.addNode, hfind, h1, h2]⟩
    · exact ⟨"Similar conversation path already explored",
        by simp [ConversationTree.addNode, hfind, h1, h2, hred]⟩

/-- C2 witness: re-adding the root's prompt `"hello"` (same signature) to
`exTree1` is rejected. -/
theorem path_signatures_globally_unique_witness :
    ∃ e, ConversationTree.addNode exTree1 "root" "hello" "c9" "n9" = .error e :=
  (path_signatures_globally_unique exTree1 reachable_exTree1).2 "root" "hello" "c9" "n9"
    exRoot rfl ⟨("root", exRoot), by decide, by decide⟩

/-- C9: for a fixed tree state, `getNodesWithUnexploredPaths` returns a
deterministically ordered sequence (it is a pure function of the tree state):
a permutation of exactly the eligible nodes, pairwise ordered ascending by
current child count, and, for equal child counts, with at least as many
distinct themes on the earlier node — so a node with strictly more distinct
themes sorts before an equal-child-count node with fewer. -/
theorem getNodesWithUnexploredPaths_deterministic_order (t : ConversationTree) :
    List.Perm (ConversationTree.getNodesWithUnexploredPaths t)
      ((t.nodes.map Prod.snd).filter (ConversationTree.readyForExpansion t)) ∧
    (ConversationTree.getNodesWithUnexploredPaths t).Pairwise
      (fun a b => a.children.length < b.children.length ∨
        (a.children.length = b.children.length ∧
          b.exploredThemes.length ≤ a.exploredThemes.length)) := by
  have htotal : ∀ a b : CallNode,
      ConversationTree.nodeLe a b = true ∨ ConversationTree.nodeLe b a = true := by
    intro a b
    simp only [ConversationTree.nodeLe, Bool.or_eq_true, Bool.and_eq_true, decide_eq_true_eq]
    omega
  have htrans : ∀ a b c : CallNode, ConversationTree.nodeLe a b = true →
      ConversationTree.nodeLe b c = true → ConversationTree.nodeLe a c = true := by
    intro a b c
    simp only [ConversationTree.nodeLe, Bool.or_eq_true, Bool.and_eq_true, decide_eq_true_eq]
    omega
  constructor
  · exact sortByLe_perm _
  · refine (sortByLe_pairwise htotal htrans
      ((t.nodes.map Prod.snd).filter (ConversationTree.readyForExpansion t))).imp ?_
    intro a b hab
    simpa only [ConversationTree.nodeLe, Bool.or_eq_true, Bool.and_eq_true,
      decide_eq_true_eq] using hab

/-- C4 (amended): when a failure is reported for a call whose node is stored
in the tree, the handler redispatches exactly when `retryCount <
MAX_RETRY_ATTEMPTS` (= 3) — so the first **three** failures each trigger a
redispatch and a fourth dispatch of the prompt does occur after the third
failure; only a failure arriving with `retryCount` already at 3 (the fourth
failure) skips the redispatch and increments `failedCallCount`; and no branch
ever changes any stored node's status (in particular nothing is ever marked
`failed`). -/
theorem handleCallFailed_retry_behaviour
    (o : DiscoveryOrchestrator) (callId newCallId : String) (node : CallNode)
    (hfind : DiscoveryOrchestrator.findNodeByCallId o.tree callId = some node)
    (hkey : mapFind? o.tree.nodes node.id = some node) :
    ((DiscoveryOrchestrator.handleCallFailed o callId newCallId).2 =
      decide (node.retryCount < DiscoveryOrchestrator.MAX_RETRY_ATTEMPTS)) ∧
    (node.retryCount < DiscoveryOrchestrator.MAX_RETRY_ATTEMPTS →
      DiscoveryOrchestrator.handleCallFailed o callId newCallId =
        ({ o with
            tree := { o.tree with
                        nodes := mapSet o.tree.nodes node.id (bumpRetry node newCallId) }
            state := { o.state with activeCallCount := o.state.activeCallCount - 1 } },
         true)) ∧
    (DiscoveryOrchestrator.MAX_RETRY_ATTEMPTS ≤ node.retryCount →
      DiscoveryOrchestrator.handleCallFailed o callId newCallId =
        ({ o with
            state := { o.state with
                         failedCallCount := o.state.failedCallCount + 1
                         activeCallCount := o.state.activeCallCount - 1 } },
         false)) ∧
    (∀ k n', (k, n') ∈ (DiscoveryOrchestrator.handleCallFailed o callId newCallId).1.tree.nodes →
      ∃ m, (k, m) ∈ o.tree.nodes ∧ n'.status = m.status) := by
  by_cases hlt : node.retryCount < DiscoveryOrchestrator.MAX_RETRY_ATTEMPTS
  · have heq : DiscoveryOrchestrator.handleCallFailed o callId newCallId =
        ({ o with
            tree := { o.tree with
                        nodes := mapSet o.tree.nodes node.id (bumpRetry node newCallId) }
            state := { o.state with activeCallCount := o.state.activeCallCount - 1 } },
         true) := by
      simp [DiscoveryOrchestrator.handleCallFailed, hfind, hlt]
    refine ⟨by rw [heq]; simp [hlt], fun _ => heq, fun hge => absurd hlt (by omega), ?_⟩
    intro k n' hmem
    rw [heq] at hmem
    rcases mem_mapSet hmem with ⟨hk, hv⟩ | hmem'
    · exact ⟨node, by rw [hk]; exact mem_of_mapFind? hkey, by rw [hv]; rfl⟩
    · exact ⟨n', hmem', rfl⟩
  · have heq : DiscoveryOrchestrator.handleCallFailed o callId newCallId =
        ({ o with
            state := { o.state with
                         failedCallCount := o.state.failedCallCount + 1
                         activeCallCount := o.state.activeCallCount - 1 } },
         false) := by
      simp [DiscoveryOrchestrator.handleCallFailed, hfind, hlt]
    refine ⟨by rw [heq]; simp [hlt], fun hlt' => absurd hlt' hlt, fun _ => heq, ?_⟩
    intro k n' hmem
    rw [heq] at hmem
    exact ⟨n', hmem, rfl⟩

/-- C4 witness: the fresh root node of `exO1` (retry count 0) is redispatched
on its first failure, as the theorem's boolean equation predicts. -/
theorem handleCallFailed_retry_behaviour_witness :
    (DiscoveryOrchestrator.handleCallFailed exO1 "c0" "c1").2 =
      decide (exRoot.retryCount < DiscoveryOrchestrator.MAX_RETRY_ATTEMPTS) :=
  (handleCallFailed_retry_behaviour exO1 "c0" "c1" exRoot rfl rfl).1

/-- C4 counterexample: after the **third** reported failure of the root call
(`exFail3`), a redispatch still happened (`exFail3.2 = true` — the fourth
dispatch of the prompt), `failedCallCount` is still 0 (not 1), and the node's
status is still in-progress (never marked failed) with `retryCount = 3` —
contradicting the claim that the third failure marks the node permanently
failed, bumps the counter once, and prevents a fourth dispatch. -/
theorem third_failure_still_redispatches_cex :
    exFail3.2 = true ∧
    exFail3.1.state.failedCallCount = 0 ∧
    (mapFind? exFail3.1.tree.nodes "root").map CallNode.status =
      some NodeStatus.inProgress ∧
    (mapFind? exFail3.1.tree.nodes "root").map CallNode.retryCount = some 3 := by
  decide

/-- C5 (amended): a lifecycle event whose call id matches no node never
propagates an exception (both handlers are total), leaves the tree and the
frontier queue unchanged — but it does **not** leave the counters unchanged:
`handleCallCompleted` lands in its catch block and increments
`failedCallCount`, and `handleCallFailed` still performs its unconditional
`activeCallCount` decrement. -/
theorem unknown_call_id_behaviour
    (o : DiscoveryOrchestrator) (callId resp newCallId : String) (analysis : AnalysisResult)
    (hnone : DiscoveryOrchestrator.findNodeByCallId o.tree callId = none) :
    DiscoveryOrchestrator.handleCallCompleted o callId resp analysis =
      { o with state := { o.state with failedCallCount := o.state.failedCallCount + 1 } } ∧
    DiscoveryOrchestrator.handleCallFailed o callId newCallId =
      ({ o with state := { o.state with activeCallCount := o.state.activeCallCount - 1 } },
       false) := by
  constructor
  · simp [DiscoveryOrchestrator.handleCallCompleted, hnone]
  · simp [DiscoveryOrchestrator.handleCallFailed, hnone]

/-- C5 witness: the unknown call id `"zzz"` on `exO1`. -/
theorem unknown_call_id_behaviour_witness :
    DiscoveryOrchestrator.handleCallCompleted exO1 "zzz" "r"
        { identifiedPaths := [], isTerminalState := false } =
      { exO1 with state := { exO1.state with
          failedCallCount := exO1.state.failedCallCount + 1 } } ∧
    DiscoveryOrchestrator.handleCallFailed exO1 "zzz" "x" =
      ({ exO1 with state := { exO1.state with
          activeCallCount := exO1.state.activeCallCount - 1 } }, false) :=
  unknown_call_id_behaviour exO1 "zzz" "r" "x"
    { identifiedPaths := [], isTerminalState := false } rfl

/-- C5 counterexample: on the unknown id `"zzz"`, `handleCallCompleted`
changes `failedCallCount` and `handleCallFailed` changes `activeCallCount` —
the claim's "counters unchanged" is false. -/
theorem unknown_call_id_mutates_counters_cex :
    (DiscoveryOrchestrator.handleCallCompleted exO1 "zzz" "r"
        { identifiedPaths := [], isTerminalState := false }).state.failedCallCount ≠
      exO1.state.failedCallCount ∧
    (DiscoveryOrchestrator.handleCallFailed exO1 "zzz" "x").1.state.activeCallCount ≠
      exO1.state.activeCallCount := by
  decide

/-- C8 (amended): when the dispatch of the queue's head task fails, the task
is re-enqueued at the back with priority decremented by 1 exactly when its
current priority exceeds −2; otherwise (priority ≤ −2, including exactly −2)
it is dropped silently — and in neither case is any discovery counter
(`failedCallCount` included) changed, since the whole state record is left
untouched. -/
theorem processOneQueued_dispatch_failure
    (o : DiscoveryOrchestrator) (maxCC : Int) (newNodeId : String)
    (task : QueueTask) (rest : List QueueTask)
    (hrun : o.state.isRunning = true) (hq : o.callQueue = task :: rest)
    (hcap : o.state.activeCallCount < maxCC) :
    DiscoveryOrchestrator.processOneQueued o maxCC .failed newNodeId =
      { o with callQueue :=
          if -2 < task.priority then rest ++ [{ task with priority := task.priority - 1 }]
          else rest } := by
  by_cases h : -2 < task.priority
  · simp [DiscoveryOrchestrator.processOneQueued, hrun, hq, if_pos hcap,
      DiscoveryOrchestrator.retryOrDrop, DiscoveryOrchestrator.shouldRetryCall, h]
  · simp [DiscoveryOrchestrator.processOneQueued, hrun, hq, if_pos hcap,
      DiscoveryOrchestrator.retryOrDrop, DiscoveryOrchestrator.shouldRetryCall, h]

/-- C8 witness: the floor task `exTask` (priority −2) at the head of `exO8`'s
queue under a failing dispatch. -/
theorem processOneQueued_dispatch_failure_witness :
    DiscoveryOrchestrator.processOneQueued exO8 3 .failed "n9" =
      { exO8 with callQueue :=
          if -2 < exTask.priority then [] ++ [{ exTask with priority := exTask.priority - 1 }]
          else [] } :=
  processOneQueued_dispatch_failure exO8 3 "n9" exTask [] rfl rfl (by decide)

/-- C8 counterexample: `exTask` has priority exactly −2 — which has **not**
fallen below the floor of −2 — yet the failing dispatch drops it (empty
queue afterwards) and `failedCallCount` is not incremented, contradicting
both halves of the claim. -/
theorem dropped_task_no_failure_count_cex :
    exTask.priority = -2 ∧
    (DiscoveryOrchestrator.processOneQueued exO8 3 .failed "n9").callQueue = [] ∧
    (DiscoveryOrchestrator.processOneQueued exO8 3 .failed "n9").state.failedCallCount =
      exO8.state.failedCallCount := by
  decide

/-- C6 (amended): for a candidate whose signature is not yet recorded in the
tree, the novelty decision of `isRedundantPath` is: keep (not redundant) when
the candidate yields no themes; keep when the context node (the candidate's
intended parent) has no parent, i.e. is the root; and otherwise, with the
context's parent `parent` looked up, drop exactly when every theme of the
candidate is covered by the theme union over `parent`'s children — that is,
over the intended parent's **siblings** (the context node included), not over
the intended parent's own children as the claim states. -/
theorem isRedundantPath_fresh_characterisation (t : ConversationTree) (sig : String)
    (ctx : CallNode) (hfresh : t.exploredSignatures.contains sig = false) :
    (extractThemes sig = [] → ConversationTree.isRedundantPath t sig ctx = false) ∧
    (ctx.parentId = none → ConversationTree.isRedundantPath t sig ctx = false) ∧
    (∀ pid parent, ctx.parentId = some pid → mapFind? t.nodes pid = some parent →
      extractThemes sig ≠ [] →
      (ConversationTree.isRedundantPath t sig ctx = true ↔
        ∀ th ∈ extractThemes sig, th ∈ ConversationTree.childrenThemesUnion t parent)) := by
  have hnm : sig ∉ t.exploredSignatures := by
    intro hm
    rw [contains_of_mem hm] at hfresh
    exact Bool.noConfusion hfresh
  refine ⟨?_, ?_, ?_⟩
  · intro hthemes
    simp [ConversationTree.isRedundantPath, hnm, hthemes]
  · intro hparent
    simp [ConversationTree.isRedundantPath, hnm, hparent]
  · intro pid parent hpid hparent hne
    have hie : (extractThemes sig).isEmpty = false := by
      cases h : extractThemes sig with
      | nil => exact absurd h hne
      | cons a l => rfl
    simp [ConversationTree.isRedundantPath, hnm, hpid, hparent, hie, List.all_eq_true]

/-- C6 witness: in `exTree2`, the fresh candidate signature `"now_quote"`
judged against the context node `exChild` (whose parent is the root) is
characterised by the theme-coverage test over the root's children. -/
theorem isRedundantPath_fresh_characterisation_witness :
    exTree2.exploredSignatures.contains "now_quote" = false ∧
    (ConversationTree.isRedundantPath exTree2 "now_quote" exChild = true ↔
      ∀ th ∈ extractThemes "now_quote",
        th ∈ ConversationTree.childrenThemesUnion exTree2 exRoot2) :=
  ⟨by decide,
    (isRedundantPath_fresh_characterisation exTree2 "now_quote" exChild (by decide)).2.2
      "root" exRoot2 rfl rfl (by decide)⟩

/-- C6 counterexample: the candidate `"repair now"` for the intended parent
`exRoot2` (the root of `exTree2`) has a fresh signature and its single theme
`repair` is already covered by the union of themes across the intended
parent's existing children, so the claim demands `drop`; but the code, whose
theme check inspects the context's parent (and the root has none), keeps
it. -/
theorem parent_children_coverage_kept_cex :
    exTree2.exploredSignatures.contains (generatePathSignature "repair now") = false ∧
    extractThemes (generatePathSignature "repair now") ≠ [] ∧
    (∀ th ∈ extractThemes (generatePathSignature "repair now"),
      th ∈ ConversationTree.childrenThemesUnion exTree2 exRoot2) ∧
    ConversationTree.isRedundantPath exTree2 (generatePathSignature "repair now") exRoot2 =
      false := by
  decide

/-- C3 (amended): when a completion is processed for a known node and the
analysis is not terminal, the engine enqueues **every** candidate of
`analysis.identifiedPaths` — the unfiltered analyzer output, including the
candidates the novelty filter just dropped from the node's stored list — each
with the priority computed against the post-completion state, and keeps the
whole queue sorted descending by priority. -/
theorem handleCallCompleted_enqueues_all_candidates
    (o : DiscoveryOrchestrator) (callId resp : String) (analysis : AnalysisResult)
    (node : CallNode)
    (hfind : DiscoveryOrchestrator.findNodeByCallId o.tree callId = some node)
    (hkey : mapFind? o.tree.nodes node.id = some node)
    (hterm : analysis.isTerminalState = false) :
    List.Perm (DiscoveryOrchestrator.handleCallCompleted o callId resp analysis).callQueue
      (o.callQueue ++ analysis.identifiedPaths.map (fun prompt =>
        { parentId := node.id, prompt := prompt,
          priority := DiscoveryOrchestrator.calculatePathPriority
            (DiscoveryOrchestrator.updateStateAfterCall o.state (extractThemes resp))
            prompt })) ∧
    (DiscoveryOrchestrator.handleCallCompleted o callId resp analysis).callQueue.Pairwise
      (fun a b => b.priority ≤ a.priority) := by
  have htotal : ∀ a b : QueueTask,
      DiscoveryOrchestrator.taskLe a b = true ∨ DiscoveryOrchestrator.taskLe b a = true := by
    intro a b
    simp only [DiscoveryOrchestrator.taskLe, decide_eq_true_eq]
    omega
  have htrans : ∀ a b c : QueueTask, DiscoveryOrchestrator.taskLe a b = true →
      DiscoveryOrchestrator.taskLe b c = true → DiscoveryOrchestrator.taskLe a c = true := by
    intro a b c
    simp only [DiscoveryOrchestrator.taskLe, decide_eq_true_eq]
    omega
  have hupd : ConversationTree.updateNodeWithResponse o.tree node.id resp
      (some analysis.identifiedPaths) =
      .ok ({ o.tree with nodes := mapSet o.tree.nodes node.id (updatedNode o.tree node resp (some analysis.identifiedPaths)) },
           extractThemes resp) := by
    simp [ConversationTree.updateNodeWithResponse, hkey, updatedNode]
  have heq : DiscoveryOrchestrator.handleCallCompleted o callId resp analysis =
      DiscoveryOrchestrator.queueNewPaths
        ({ o with
            tree := { o.tree with nodes := mapSet o.tree.nodes node.id (updatedNode o.tree node resp (some analysis.identifiedPaths)) }
            state := DiscoveryOrchestrator.updateStateAfterCall o.state (extractThemes resp) })
        node.id analysis.identifiedPaths := by
    simp [DiscoveryOrchestrator.handleCallCompleted, hfind, hupd, hterm]
  rw [heq]
  constructor
  · exact sortByLe_perm _
  · refine (sortByLe_pairwise htotal htrans _).imp ?_
    intro a b hab
    simpa only [DiscoveryOrchestrator.taskLe, decide_eq_true_eq] using hab

/-- C3 witness: completing the root call of `exO1` with the non-terminal
analysis proposing the single candidate `"hello"`. -/
theorem handleCallCompleted_enqueues_all_candidates_witness :
    List.Perm (DiscoveryOrchestrator.handleCallCompleted exO1 "c0" "hi there"
        { identifiedPaths := ["hello"], isTerminalState := false }).callQueue
      (exO1.callQueue ++ (["hello"].map (fun prompt =>
        { parentId := "root", prompt := prompt,
          priority := DiscoveryOrchestrator.calculatePathPriority
            (DiscoveryOrchestrator.updateStateAfterCall exO1.state (extractThemes "hi there"))
            prompt }))) :=
  (handleCallCompleted_enqueues_all_candidates exO1 "c0" "hi there"
    { identifiedPaths := ["hello"], isTerminalState := false } exRoot rfl rfl rfl).1

/-- C3 counterexample: in `exO1done` the candidate `"hello"` was dropped by
the novelty filter (the completed root stores an empty survivor list), yet it
was still enqueued on the scheduler — contradicting the claim that exactly
the surviving candidates are enqueued and a dropped candidate never is. -/
theorem dropped_candidate_still_enqueued_cex :
    (mapFind? exO1done.tree.nodes "root").map CallNode.potentialPrompts = some (some []) ∧
    exO1done.callQueue.map QueueTask.prompt = ["hello"] := by
  decide

end HammingDiscovery
